import Mathlib

/-! gos3uploader, `internal/cephMeta.go`

A shallow embedding of `prepareKey`, `getAcl` and `tryFromUrl` and the
properties of them that the specification states.

Conventions of the embedding

* A Go `string` is a sequence of bytes: `GoString := List (Fin 256)`.
* A Go `error` value is `Option GoError`; `none` is `nil`.
* A Go function that may fault at run time (slice bounds, nil dereference)
  returns `Except Panic _`; `.error p` is the fault, `.ok r` the values returned.
* Collaborators outside the file (the HTTP transport, the XML decoder, the
  clock, the signer, the bucket handle of goamz) are fields of `World` and
  `Bucket`: each is called at most once per run, so a function per call suffices.
-/

namespace CephMeta

/-! ## Strings -/

/-- A Go string: an immutable sequence of bytes. -/
abbrev GoString := List (Fin 256)

/-- The bytes of an ASCII literal (for code points below 128 this is the UTF-8 encoding
Go stores; the literals of the program and of the examples are all ASCII). -/
def bytes (s : String) : GoString := s.toList.map (fun c => Fin.ofNat c.toNat)

/-- Go `strings.HasPrefix(s, p)`: `s` begins with `p`. -/
def HasPrefix : GoString → GoString → Bool
  | _, [] => true
  | [], _ :: _ => false
  | c :: s, d :: p => c == d && HasPrefix s p

/-- The search of `strings.Index` started at offset `i` of the original string: the first
offset at or after `i` where `substr` begins, `-1` if there is none. -/
def indexFrom (substr : GoString) : GoString → Nat → Int
  | [], i => if HasPrefix [] substr then (i : Int) else -1
  | c :: s, i => if HasPrefix (c :: s) substr then (i : Int) else indexFrom substr s (i + 1)

/-- Go `strings.Index(s, substr)`: the index of the first instance of `substr` in `s`,
or `-1` if `substr` is not present in `s`. -/
def Index (s substr : GoString) : Int := indexFrom substr s 0

/-- Go runtime faults that the program can raise. -/
inductive Panic where
  | sliceBoundsOutOfRange
  | nilDereference
  deriving DecidableEq, Repr

deriving instance DecidableEq for Except

/-- Go slice expression `s[lo:]` on a string: faults unless `0 ≤ lo ≤ len(s)`. -/
def sliceFrom (s : GoString) (lo : Int) : Except Panic GoString :=
  if 0 ≤ lo ∧ lo ≤ (s.length : Int) then .ok (s.drop lo.toNat) else .error .sliceBoundsOutOfRange

/-- Go slice expression `s[lo:hi]` on a string: faults unless `0 ≤ lo ≤ hi ≤ len(s)`. -/
def slice (s : GoString) (lo hi : Int) : Except Panic GoString :=
  if 0 ≤ lo ∧ lo ≤ hi ∧ hi ≤ (s.length : Int) then .ok ((s.take hi.toNat).drop lo.toNat)
  else .error .sliceBoundsOutOfRange

/-! ## Errors -/

/-- The error values that occur: the four sentinels of the package, the two causes of a
`strconv.NumError`, and errors made by collaborators (transport, XML decoding). -/
inductive GoError where
  | NotSuccessHttpStatusError
  | NotImplementedAclMappingError
  | FileInvalidSizeError
  | MimeTypeNotRecognizedError
  | ErrSyntax
  | ErrRange
  | external (code : Nat)
  deriving DecidableEq, Repr

/-! ## `strconv.ParseInt(s, 10, 0)` -/

/-- The digit loop of `strconv.ParseUint` for base 10 and 64 bits, with accumulator `n`:
a byte that is not a decimal digit is a syntax error with value 0; overflow is a range
error with value `2^64 - 1`; both leave the loop at once. -/
def parseUintLoop : GoString → Nat → Nat × Option GoError
  | [], n => (n, none)
  | c :: s, n =>
    if 48 ≤ c.val ∧ c.val ≤ 57 then
      if n ≥ (2 ^ 64 - 1) / 10 + 1 then (2 ^ 64 - 1, some .ErrRange)
      else if n * 10 + (c.val - 48) > 2 ^ 64 - 1 then (2 ^ 64 - 1, some .ErrRange)
      else parseUintLoop s (n * 10 + (c.val - 48))
    else (0, some .ErrSyntax)

/-- Go `strconv.ParseUint(s, 10, 64)`. -/
def ParseUint (s : GoString) : Nat × Option GoError :=
  if s = [] then (0, some .ErrSyntax) else parseUintLoop s 0

/-- Go `strconv.ParseInt(s, 10, 0)` where `int` has 64 bits: an optional sign, then
`ParseUint`; a syntax error gives 0, a value out of range gives the nearest bound and a
range error. -/
def ParseInt (s : GoString) : Int × Option GoError :=
  match s with
  | [] => (0, some .ErrSyntax)
  | c :: rest =>
    let neg : Bool := c == 45
    let digits : GoString := if c == 43 ∨ c == 45 then rest else c :: rest
    match ParseUint digits with
    | (_, some .ErrSyntax) => (0, some .ErrSyntax)
    | (un, _) =>
      if neg = false ∧ un ≥ 2 ^ 63 then ((2 : Int) ^ 63 - 1, some .ErrRange)
      else if neg = true ∧ un > 2 ^ 63 then (-(2 : Int) ^ 63, some .ErrRange)
      else (if neg then -(un : Int) else (un : Int), none)

/-! ## HTTP headers -/

/-- A Go `map[string][]string` (`http.Header`, `url.Values`): the entry found first counts. -/
abbrev Values := List (GoString × List GoString)

/-- Reading a map: a missing key reads as the nil slice. -/
def Values.lookup (m : Values) (key : GoString) : List GoString :=
  match m with
  | [] => []
  | (k, v) :: rest => if k = key then v else Values.lookup rest key

/-- Writing a map: `m[key] = v`. -/
def Values.set (m : Values) (key : GoString) (v : List GoString) : Values :=
  (key, v) :: m.filter (fun e => e.1 ≠ key)

/-- The bytes that `net/textproto` accepts in a header field name (the token characters). -/
def validHeaderFieldByte (c : Fin 256) : Bool :=
  (48 ≤ c.val ∧ c.val ≤ 57) ∨ (65 ≤ c.val ∧ c.val ≤ 90) ∨ (97 ≤ c.val ∧ c.val ≤ 122) ∨
    c.val ∈ [33, 35, 36, 37, 38, 39, 42, 43, 45, 46, 94, 95, 96, 124, 126]

/-- The rewriting loop of `textproto.CanonicalMIMEHeaderKey`: upper case at the start and
after a hyphen, lower case elsewhere. `upper` says whether the next byte starts a word. -/
def canonicalLoop : GoString → Bool → GoString
  | [], _ => []
  | c :: s, upper =>
    let c1 : Fin 256 :=
      if upper = true ∧ 97 ≤ c.val ∧ c.val ≤ 122 then Fin.ofNat (c.val - 32)
      else if upper = false ∧ 65 ≤ c.val ∧ c.val ≤ 90 then Fin.ofNat (c.val + 32)
      else c
    c1 :: canonicalLoop s (c1 == 45)

/-- Go `textproto.CanonicalMIMEHeaderKey`: a key with a byte that is not a token
character is returned unchanged. -/
def CanonicalMIMEHeaderKey (s : GoString) : GoString :=
  if s.all validHeaderFieldByte then canonicalLoop s true else s

/-- Go `http.Header.Get`: the first value of the canonical form of `key`, or `""` when
there is none. -/
def Header.Get (h : Values) (key : GoString) : GoString :=
  match Values.lookup h (CanonicalMIMEHeaderKey key) with
  | [] => []
  | v :: _ => v

/-! ## Data model -/

/-- Go `s3.ACL` of goamz: a string type. -/
abbrev ACL := GoString

/-- Go `s3.Private`. -/
def s3.Private : ACL := bytes "private"

/-- Go `s3.PublicRead`. -/
def s3.PublicRead : ACL := bytes "public-read"

/-- Go `s3.PublicReadWrite`. -/
def s3.PublicReadWrite : ACL := bytes "public-read-write"

/-- Modelled from the spec: the declaration of `AccessControlPolicy` is not in
`cephMeta.go`; a grantee as `getAcl` reads it, with its `URI`. -/
structure Grantee where
  URI : GoString
  deriving DecidableEq, Repr

/-- Modelled from the spec: one grant of the ACL document, read by `getAcl` as
`g.Gruntee.URI` and `g.Permission`. -/
structure Grant where
  Gruntee : Grantee
  Permission : GoString
  deriving DecidableEq, Repr

/-- Modelled from the spec: the ACL document decoded from the XML response; `Grants` is
`AccessControlList.Grants`, the ordered grant sequence. -/
structure AccessControlPolicy where
  Grants : List Grant
  deriving DecidableEq, Repr

/-- Modelled from the spec: the record `tryFromUrl` returns, declared outside
`cephMeta.go`. `Reader` is an interface value (`none` is nil), `Filesize` the `int64`
that `strconv.ParseInt` returned. -/
structure FileMeta (β : Type) where
  Reader : Option β
  Filesize : Int
  Mimetype : GoString
  Acl : ACL
  deriving DecidableEq, Repr

/-- The zero value of `FileMeta`: what the named result `fmeta` holds until assigned. -/
def FileMeta.zero (β : Type) : FileMeta β := ⟨none, 0, [], []⟩

/-- The part of Go `http.Response` that is read; `β` is the type of response bodies. -/
structure Response (β : Type) where
  StatusCode : Int
  Header : Values
  Body : β

/-- The part of Go `url.URL` that is used: its string form, as `u.String()` gives it, and
the `RawQuery` field. -/
structure URL where
  String : GoString
  RawQuery : GoString
  deriving DecidableEq, Repr

/-- The `http.Request` literal that `getAcl` builds. -/
structure Request where
  URL : URL
  Method : GoString
  ProtoMajor : Nat
  ProtoMinor : Nat
  Close : Bool
  Header : Values
  deriving DecidableEq, Repr

/-- Go `aws.Auth`: the credentials handed to `sign`. -/
structure Auth where
  AccessKey : GoString
  SecretKey : GoString
  deriving DecidableEq, Repr

/-- The bucket handle (`*s3.Bucket` of goamz) as far as the program uses it: the name, the
endpoint and credentials of its `S3`, and its three operations. -/
structure Bucket (β : Type) where
  Name : GoString
  S3BucketEndpoint : GoString
  Auth : Auth
  /-- Method `GetResponse(key)`. -/
  GetResponse : GoString → Except GoError (Response β)
  /-- Method `URL(key)`. -/
  URL : GoString → GoString
  /-- Method `HTTPClient().Do(&hreq)`. -/
  Do : Request → Except GoError (Response β)

/-- The collaborators that are not part of the bucket handle. -/
structure World (β : Type) where
  /-- The value of `time.Now().In(time.UTC).Format(time.RFC1123)` at the call. -/
  now : GoString
  /-- The effect of `sign(auth, method, path, params, headers)`, declared outside
  `cephMeta.go`: the headers it leaves behind. -/
  sign : Auth → GoString → GoString → Values → Values → Values
  /-- Go `url.Parse`; `none` is the nil URL of a failed parse. -/
  parse : GoString → Option URL
  /-- Go `xml.NewDecoder(body).Decode(&cephAclResponse)`. -/
  decode : β → Except GoError AccessControlPolicy

/-! ## `prepareKey` -/

/-- Go `prepareKey(u, bucket)`, on the string form of `u` and the bucket name. The named
result `key` is first set to the whole URL string and returned as it is when the bucket
name is not found; otherwise it is sliced from one byte past the first occurrence. -/
def prepareKey (u : URL) (bucketName : GoString) : Except Panic (GoString × Option GoError) :=
  let key := u.String
  let indexOfBucketName := Index key bucketName
  if indexOfBucketName = -1 then
    .ok (key, none)
  else do
    let key ← sliceFrom key (indexOfBucketName + (bucketName.length : Int) + 1)
    return (key, none)

/-! ## `getAcl` -/

/-- The all-users group URI. -/
def allUsersURI : GoString := bytes "http://acs.amazonaws.com/groups/global/AllUsers"

/-- The authenticated-users group URI. -/
def authenticatedUsersURI : GoString :=
  bytes "http://acs.amazonaws.com/groups/global/AuthenticatedUsers"

/-- The log-delivery group URI. -/
def logDeliveryURI : GoString := bytes "http://acs.amazonaws.com/groups/s3/LogDelivery"

/-- The loop of `getAcl` over the grants (lines 108 to 132), from the values `acl` and
`err` have on entry to the values they have on exit. An all-users grant sets the level
by its permission and leaves the loop (`break`); any other grant may set `err`. -/
def grantLoop : List Grant → ACL × Option GoError → ACL × Option GoError
  | [], st => st
  | g :: gs, (acl, err) =>
    if g.Gruntee.URI = allUsersURI then
      let acl := if g.Permission = bytes "READ" then s3.PublicRead else acl
      let acl := if g.Permission = bytes "WRITE" then s3.PublicReadWrite else acl
      (acl, err)
    else
      let err := if g.Gruntee.URI = authenticatedUsersURI then
        some GoError.NotImplementedAclMappingError else err
      let err := if g.Gruntee.URI = logDeliveryURI then
        some GoError.NotImplementedAclMappingError else err
      let err := if g.Permission = bytes "FULL_CONTROL" ∧ g.Gruntee.URI ≠ [] then
        some GoError.NotImplementedAclMappingError else err
      grantLoop gs (acl, err)

/-- The grant interpretation of `getAcl` as a function of the decoded grant list: the
loop entered with `acl = s3.Private` and `err = nil`, as `getAcl` enters it. -/
def interpretGrants (grants : List Grant) : ACL × Option GoError :=
  grantLoop grants (s3.Private, none)

/-- The path `getAcl` passes to `sign` (lines 71 to 76): the key, with a `/` put in front
unless its first byte is one, after `/` and the bucket name. -/
def toSignString (bucketName key : GoString) : Except Panic GoString := do
  let toSignString := key
  let first ← slice toSignString 0 1
  let toSignString := if first ≠ bytes "/" then bytes "/" ++ toSignString else toSignString
  return bytes "/" ++ bucketName ++ toSignString

/-- Go `getAcl(s3Bucket, key, u)`. The parameter `u` is overwritten before it is read. -/
def getAcl {β : Type} (w : World β) (s3Bucket : Bucket β) (key : GoString) (_u : URL) :
    Except Panic (ACL × Option GoError) := do
  let acl := s3.Private
  let params : Values := Values.set [] (bytes "acl") [[]]
  let headers : Values := Values.set [] (bytes "Host") [s3Bucket.S3BucketEndpoint]
  let headers := Values.set headers (bytes "Date") [w.now]
  let toSignString ← toSignString s3Bucket.Name key
  let headers := w.sign s3Bucket.Auth (bytes "GET") toSignString params headers
  let z := s3Bucket.URL key
  match w.parse z with
  | none => throw Panic.nilDereference
  | some u =>
    let u := { u with RawQuery := bytes "acl" }
    let hreq : Request :=
      { URL := u, Method := bytes "GET", ProtoMajor := 1, ProtoMinor := 1, Close := true,
        Header := headers }
    match s3Bucket.Do hreq with
    | .error err => return (acl, some err)
    | .ok ok =>
      if ok.StatusCode ≠ 200 then
        return (acl, some GoError.NotSuccessHttpStatusError)
      else
        match w.decode ok.Body with
        | .error err => return (acl, some err)
        | .ok cephAclResponse => return grantLoop cephAclResponse.Grants (acl, none)

/-! ## `tryFromUrl` -/

/-- Go `tryFromUrl(u, sourceS3Bucket)`. Every early `return` hands back the named results
as they stand: `fmeta` still zero, `err` the error just assigned. -/
def tryFromUrl {β : Type} (w : World β) (u : URL) (sourceS3Bucket : Bucket β) :
    Except Panic (FileMeta β × Option GoError) := do
  let fmeta := FileMeta.zero β
  let (key, err) ← prepareKey u sourceS3Bucket.Name
  if err ≠ none then
    return (fmeta, err)
  else
    match sourceS3Bucket.GetResponse key with
    | .error err => return (fmeta, some err)
    | .ok resp =>
      if resp.StatusCode ≠ 200 then
        return (fmeta, some GoError.NotSuccessHttpStatusError)
      else
        let (filesize, _err) := ParseInt (Header.Get resp.Header (bytes "content-length"))
        if filesize = 0 then
          return (fmeta, some GoError.FileInvalidSizeError)
        else
          let contentType := Header.Get resp.Header (bytes "content-type")
          if contentType = [] then
            return (fmeta, some GoError.MimeTypeNotRecognizedError)
          else
            let (acl, err) ← getAcl w sourceS3Bucket key u
            if err ≠ none then
              return (fmeta, err)
            else
              return ({ Reader := some resp.Body, Filesize := filesize,
                        Mimetype := contentType, Acl := acl }, err)

/-! ## Concrete collaborators used by the examples -/

/-- A grant with the given grantee URI and permission. -/
def mkGrant (uri permission : GoString) : Grant := ⟨⟨uri⟩, permission⟩

/-- The search behind `specKey`: what follows the first place where `pat` begins. -/
def suffixAfterFirst (pat : GoString) : GoString → Option GoString
  | [] => if HasPrefix [] pat then some [] else none
  | c :: s =>
    if HasPrefix (c :: s) pat then some ((c :: s).drop pat.length) else suffixAfterFirst pat s

/-- The key in the words of the specification of the key resolver: the suffix of the URL
string after the first occurrence of bucket name plus separator; `none` when there is no
such occurrence. Used only to compare `prepareKey` with. -/
def specKey (s bucketName : GoString) : Option GoString :=
  suffixAfterFirst (bucketName ++ bytes "/") s

/-- A key in the words of the specification of the signed path: the key with its leading
separators removed. Used only to compare `toSignString` with. -/
def trimLeadingSeparators : GoString → GoString
  | [] => []
  | c :: s => if c = 47 then trimLeadingSeparators s else c :: s

/-- The URL of the end-to-end scenario. -/
def exampleURL : URL := ⟨bytes "https://store.example/bucket-a/dir/file.bin", []⟩

/-- An object response with the given status and the two headers; its body is stream 7. -/
def exampleResponse (status : Int) (contentLength contentType : GoString) : Response Nat :=
  { StatusCode := status,
    Header := [(bytes "Content-Length", [contentLength]), (bytes "Content-Type", [contentType])],
    Body := 7 }

/-- An object response with status 200 and a content-length header only. -/
def exampleResponseNoType (contentLength : GoString) : Response Nat :=
  { StatusCode := 200, Header := [(bytes "Content-Length", [contentLength])], Body := 7 }

/-- The bucket `bucket-a` of the scenario: `GetResponse` answers with `resp`, the ACL
request is answered with status 200 and body stream 8. -/
def exampleBucket (resp : Response Nat) : Bucket Nat :=
  { Name := bytes "bucket-a",
    S3BucketEndpoint := bytes "store.example",
    Auth := ⟨bytes "AK", bytes "SK"⟩,
    GetResponse := fun _ => .ok resp,
    URL := fun key => bytes "https://store.example/bucket-a/" ++ key,
    Do := fun _ => .ok { StatusCode := 200, Header := [], Body := 8 } }

/-- A world in which the ACL document decodes to the given grants. -/
def exampleWorld (grants : List Grant) : World Nat :=
  { now := bytes "Tue, 03 Nov 2026 12:00:00 UTC",
    sign := fun _ _ _ _ headers =>
      Values.set headers (bytes "Authorization") [bytes "AWS AK:signature"],
    parse := fun z => some ⟨z, []⟩,
    decode := fun _ => .ok ⟨grants⟩ }

/-! ## Lemmas on the grant loop -/

theorem authenticatedUsersURI_ne_allUsersURI : authenticatedUsersURI ≠ allUsersURI := by decide

theorem logDeliveryURI_ne_allUsersURI : logDeliveryURI ≠ allUsersURI := by decide

/-- One step of the loop on a grant that is not an all-users grant. -/
theorem grantLoop_cons_of_ne (g : Grant) (gs : List Grant) (acl : ACL) (err : Option GoError)
    (h : g.Gruntee.URI ≠ allUsersURI) :
    grantLoop (g :: gs) (acl, err) =
      grantLoop gs (acl,
        if g.Permission = bytes "FULL_CONTROL" ∧ g.Gruntee.URI ≠ [] then
          some GoError.NotImplementedAclMappingError
        else if g.Gruntee.URI = logDeliveryURI then some GoError.NotImplementedAclMappingError
        else if g.Gruntee.URI = authenticatedUsersURI then
          some GoError.NotImplementedAclMappingError
        else err) := by
  simp only [grantLoop, if_neg h]

/-- One step of the loop on an all-users grant: the loop is left, `err` is untouched. -/
theorem grantLoop_cons_of_eq (g : Grant) (gs : List Grant) (acl : ACL) (err : Option GoError)
    (h : g.Gruntee.URI = allUsersURI) :
    grantLoop (g :: gs) (acl, err) =
      (if g.Permission = bytes "WRITE" then s3.PublicReadWrite
        else if g.Permission = bytes "READ" then s3.PublicRead else acl, err) := by
  simp only [grantLoop, if_pos h]

/-- The loop never clears a mapping failure once it is recorded. -/
theorem grantLoop_err_sticky (gs : List Grant) (acl : ACL) :
    (grantLoop gs (acl, some GoError.NotImplementedAclMappingError)).2 =
      some GoError.NotImplementedAclMappingError := by
  induction gs generalizing acl with
  | nil => rfl
  | cons g gs ih =>
    by_cases h : g.Gruntee.URI = allUsersURI
    · rw [grantLoop_cons_of_eq g gs acl _ h]
    · rw [grantLoop_cons_of_ne g gs acl _ h]
      split_ifs <;> exact ih acl

/-- Over a prefix without all-users grants the loop runs to the end of the prefix. -/
theorem grantLoop_append (pre rest : List Grant) (st : ACL × Option GoError)
    (hpre : ∀ h ∈ pre, h.Gruntee.URI ≠ allUsersURI) :
    grantLoop (pre ++ rest) st = grantLoop rest (grantLoop pre st) := by
  induction pre generalizing st with
  | nil => rfl
  | cons g pre ih =>
    obtain ⟨acl, err⟩ := st
    have hg : g.Gruntee.URI ≠ allUsersURI := hpre g (List.mem_cons_self _ _)
    have hrest : ∀ h ∈ pre, h.Gruntee.URI ≠ allUsersURI :=
      fun h hh => hpre h (List.mem_cons_of_mem _ hh)
    rw [List.cons_append, grantLoop_cons_of_ne g _ acl err hg,
      grantLoop_cons_of_ne g _ acl err hg]
    exact ih _ hrest

/-- Over a prefix without all-users grants the level is not changed. -/
theorem grantLoop_fst_of_no_allUsers (pre : List Grant) (st : ACL × Option GoError)
    (hpre : ∀ h ∈ pre, h.Gruntee.URI ≠ allUsersURI) :
    (grantLoop pre st).1 = st.1 := by
  induction pre generalizing st with
  | nil => rfl
  | cons g pre ih =>
    obtain ⟨acl, err⟩ := st
    have hg : g.Gruntee.URI ≠ allUsersURI := hpre g (List.mem_cons_self _ _)
    rw [grantLoop_cons_of_ne g _ acl err hg]
    exact ih _ (fun h hh => hpre h (List.mem_cons_of_mem _ hh))

/-- A grant that records a mapping failure, met before any all-users grant, decides the
error of the whole loop. -/
theorem grantLoop_err_of_step (pre post : List Grant) (g : Grant) (st : ACL × Option GoError)
    (hpre : ∀ h ∈ pre, h.Gruntee.URI ≠ allUsersURI)
    (hg : g.Gruntee.URI ≠ allUsersURI)
    (hfail : g.Gruntee.URI = authenticatedUsersURI ∨ g.Gruntee.URI = logDeliveryURI ∨
      (g.Permission = bytes "FULL_CONTROL" ∧ g.Gruntee.URI ≠ [])) :
    (grantLoop (pre ++ g :: post) st).2 = some GoError.NotImplementedAclMappingError := by
  rw [grantLoop_append pre _ st hpre]
  obtain ⟨acl, err⟩ := grantLoop pre st
  rw [grantLoop_cons_of_ne g post acl err hg]
  have hstep : (if g.Permission = bytes "FULL_CONTROL" ∧ g.Gruntee.URI ≠ [] then
          some GoError.NotImplementedAclMappingError
        else if g.Gruntee.URI = logDeliveryURI then some GoError.NotImplementedAclMappingError
        else if g.Gruntee.URI = authenticatedUsersURI then
          some GoError.NotImplementedAclMappingError
        else err) = some GoError.NotImplementedAclMappingError := by
    rcases hfail with h | h | h
    · split_ifs <;> rfl
    · split_ifs <;> rfl
    · rw [if_pos h]
  rw [hstep]
  exact grantLoop_err_sticky post acl

/-! ## Grant interpretation: the claims -/

/-- C1, as stated, fails: in the grant list [all-users READ, log-delivery READ] the
log-delivery grant stands after the all-users grant, where the loop has already been
left, and the result is PublicRead with no error. -/
theorem interpretGrants_allUsers_then_logDelivery :
    mkGrant logDeliveryURI (bytes "READ") ∈
        [mkGrant allUsersURI (bytes "READ"), mkGrant logDeliveryURI (bytes "READ")] ∧
      interpretGrants
        [mkGrant allUsersURI (bytes "READ"), mkGrant logDeliveryURI (bytes "READ")] =
        (s3.PublicRead, none) := by
  decide

/-- C1, amended: when a grant whose grantee URI is the authenticated-users group or the
log-delivery group occurs in the grant list with no all-users grant before it, the
returned error is NotImplementedAclMappingError, whatever the other grants are. -/
theorem interpretGrants_unmappable_group (pre post : List Grant) (g : Grant)
    (hpre : ∀ h ∈ pre, h.Gruntee.URI ≠ allUsersURI)
    (hg : g.Gruntee.URI = authenticatedUsersURI ∨ g.Gruntee.URI = logDeliveryURI) :
    (interpretGrants (pre ++ g :: post)).2 = some GoError.NotImplementedAclMappingError := by
  have hne : g.Gruntee.URI ≠ allUsersURI := by
    rcases hg with h | h
    · rw [h]; exact authenticatedUsersURI_ne_allUsersURI
    · rw [h]; exact logDeliveryURI_ne_allUsersURI
  have hfail : g.Gruntee.URI = authenticatedUsersURI ∨ g.Gruntee.URI = logDeliveryURI ∨
      (g.Permission = bytes "FULL_CONTROL" ∧ g.Gruntee.URI ≠ []) := by
    rcases hg with h | h
    · exact Or.inl h
    · exact Or.inr (Or.inl h)
  exact grantLoop_err_of_step pre post g _ hpre hne hfail

/-- Witness for C1, amended: [owner WRITE, log-delivery WRITE, all-users READ], where the
log-delivery grant comes before the all-users grant. -/
theorem interpretGrants_unmappable_group_witness :
    (interpretGrants ([mkGrant [] (bytes "WRITE")] ++
        mkGrant logDeliveryURI (bytes "WRITE") :: [mkGrant allUsersURI (bytes "READ")])).2 =
      some GoError.NotImplementedAclMappingError :=
  interpretGrants_unmappable_group [mkGrant [] (bytes "WRITE")]
    [mkGrant allUsersURI (bytes "READ")] (mkGrant logDeliveryURI (bytes "WRITE"))
    (by decide) (Or.inr rfl)

/-- C2, as stated, fails: a single FULL_CONTROL grant whose grantee URI is the all-users
group (a non-empty URI) leaves the loop before the FULL_CONTROL test is reached; the
result is Private with no error. -/
theorem interpretGrants_allUsers_fullControl :
    (mkGrant allUsersURI (bytes "FULL_CONTROL")).Permission = bytes "FULL_CONTROL" ∧
      (mkGrant allUsersURI (bytes "FULL_CONTROL")).Gruntee.URI ≠ [] ∧
      interpretGrants [mkGrant allUsersURI (bytes "FULL_CONTROL")] = (s3.Private, none) := by
  decide

/-- C2, amended: when a grant with permission FULL_CONTROL and a non-empty grantee URI
other than the all-users group occurs in the grant list with no all-users grant before
it, the returned error is NotImplementedAclMappingError. The URI need not be one of the
well-known groups. -/
theorem interpretGrants_fullControl (pre post : List Grant) (g : Grant)
    (hpre : ∀ h ∈ pre, h.Gruntee.URI ≠ allUsersURI)
    (hperm : g.Permission = bytes "FULL_CONTROL")
    (huri : g.Gruntee.URI ≠ [])
    (hne : g.Gruntee.URI ≠ allUsersURI) :
    (interpretGrants (pre ++ g :: post)).2 = some GoError.NotImplementedAclMappingError :=
  grantLoop_err_of_step pre post g _ hpre hne (Or.inr (Or.inr ⟨hperm, huri⟩))

/-- Witness for C2, amended: a FULL_CONTROL grant to an unrecognised URI, followed by an
all-users READ grant. -/
theorem interpretGrants_fullControl_witness :
    (interpretGrants ([] ++ mkGrant (bytes "urn:partner") (bytes "FULL_CONTROL") ::
        [mkGrant allUsersURI (bytes "READ")])).2 =
      some GoError.NotImplementedAclMappingError :=
  interpretGrants_fullControl [] [mkGrant allUsersURI (bytes "READ")]
    (mkGrant (bytes "urn:partner") (bytes "FULL_CONTROL"))
    (by simp) rfl (by decide) (by decide)

/-- C5: for the grant list of exactly one all-users grant the result is PublicRead with no
error when its permission is READ, and PublicReadWrite with no error when it is WRITE. -/
theorem interpretGrants_single_allUsers :
    interpretGrants [mkGrant allUsersURI (bytes "READ")] = (s3.PublicRead, none) ∧
      interpretGrants [mkGrant allUsersURI (bytes "WRITE")] = (s3.PublicReadWrite, none) := by
  decide

/-- C6: for the empty grant list the result is Private with no error. -/
theorem interpretGrants_nil : interpretGrants [] = (s3.Private, none) := rfl

/-! ## `prepareKey` -/

/-- The prefix test is the prefix relation on lists. -/
theorem HasPrefix_iff (s p : GoString) : HasPrefix s p = true ↔ p <+: s := by
  induction p generalizing s with
  | nil => cases s <;> simp [HasPrefix]
  | cons d p ih =>
    cases s with
    | nil => simp [HasPrefix]
    | cons c s =>
      simp only [HasPrefix, Bool.and_eq_true, beq_iff_eq, ih, List.cons_prefix_cons]
      constructor
      · rintro ⟨h1, h2⟩; exact ⟨h1.symm, h2⟩
      · rintro ⟨h1, h2⟩; exact ⟨h1.symm, h2⟩

/-- Without an occurrence the search gives -1. -/
theorem indexFrom_of_not_infix (b s : GoString) (i : Nat) (h : ¬ b <:+: s) :
    indexFrom b s i = -1 := by
  induction s generalizing i with
  | nil =>
    have hp : ¬ HasPrefix [] b = true := fun hp => h ((HasPrefix_iff _ _).1 hp).isInfix
    simp [indexFrom, hp]
  | cons c s ih =>
    have hp : ¬ HasPrefix (c :: s) b = true := fun hp => h ((HasPrefix_iff _ _).1 hp).isInfix
    have hs : ¬ b <:+: s := fun hs => h (List.infix_cons hs)
    simp [indexFrom, hp, ih (i + 1) hs]

/-- The search finds the first occurrence: an occurrence with none starting before it. -/
theorem indexFrom_of_first (b pre post : GoString) (i : Nat)
    (hfirst : ∀ p q : GoString, pre ++ b ++ post = p ++ b ++ q → pre.length ≤ p.length) :
    indexFrom b (pre ++ b ++ post) i = (i : Int) + (pre.length : Int) := by
  induction pre generalizing i with
  | nil =>
    have hp : HasPrefix ([] ++ b ++ post) b = true :=
      (HasPrefix_iff _ _).2 ⟨post, by simp⟩
    cases hs : ([] ++ b ++ post : GoString) with
    | nil => rw [hs] at hp; simp [indexFrom, hp]
    | cons c s => rw [hs] at hp; simp [indexFrom, hp]
  | cons x pre ih =>
    have hp : ¬ HasPrefix (x :: (pre ++ b ++ post)) b = true := by
      intro hp
      obtain ⟨q, hq⟩ := (HasPrefix_iff _ _).1 hp
      have := hfirst [] q (by simpa using hq.symm)
      simp at this
    have htail : ∀ p q : GoString, pre ++ b ++ post = p ++ b ++ q → pre.length ≤ p.length := by
      intro p q hpq
      have := hfirst (x :: p) q (by simp [hpq])
      simpa using this
    show indexFrom b (x :: (pre ++ b ++ post)) i = _
    rw [indexFrom, if_neg hp, ih (i + 1) htail]
    simp only [List.length_cons, Nat.cast_add, Nat.cast_one]
    ring

/-- With an occurrence at offset `p.length` the search gives an offset not beyond it. -/
theorem indexFrom_of_occurrence (b p q : GoString) (i : Nat) :
    (i : Int) ≤ indexFrom b (p ++ b ++ q) i ∧
      indexFrom b (p ++ b ++ q) i ≤ (i : Int) + (p.length : Int) := by
  induction p generalizing i with
  | nil =>
    have hp : HasPrefix ([] ++ b ++ q) b = true := (HasPrefix_iff _ _).2 ⟨q, by simp⟩
    cases hs : ([] ++ b ++ q : GoString) with
    | nil => rw [hs] at hp; simp [indexFrom, hp]
    | cons c s => rw [hs] at hp; simp [indexFrom, hp]
  | cons x p ih =>
    show (i : Int) ≤ indexFrom b (x :: (p ++ b ++ q)) i ∧
      indexFrom b (x :: (p ++ b ++ q)) i ≤ (i : Int) + ((x :: p).length : Int)
    rw [indexFrom]
    split_ifs
    · constructor
      · exact le_refl _
      · have : (0 : Int) ≤ ((x :: p).length : Int) := Int.ofNat_nonneg _
        omega
    · have := ih (i + 1)
      simp only [List.length_cons, Nat.cast_add, Nat.cast_one] at this ⊢
      omega

/-- The result of `Index` is -1 exactly when there is no occurrence. -/
theorem Index_eq_neg_one_iff (s b : GoString) : Index s b = -1 ↔ ¬ b <:+: s := by
  constructor
  · rintro h ⟨p, q, rfl⟩
    have := (indexFrom_of_occurrence b p q 0).1
    rw [Index] at h
    rw [h] at this
    simp at this
  · exact indexFrom_of_not_infix b s 0

/-- No occurrence starts before the offset `Index` gives. -/
theorem Index_le_of_occurrence (s b p q : GoString) (h : s = p ++ b ++ q) :
    Index s b ≤ (p.length : Int) := by
  subst h
  simpa [Index] using (indexFrom_of_occurrence b p q 0).2

/-- C3, amended: when the bucket name occurs in the URL string and at least one byte
follows its first occurrence, prepareKey returns, with a nil error, the suffix of the URL
string after that first occurrence and the one byte that follows it, whatever that byte
is (so, when that byte is the separator, the suffix after bucket name and separator). -/
theorem prepareKey_first (u : URL) (bucketName pre post : GoString) (c : Fin 256)
    (hs : u.String = pre ++ bucketName ++ c :: post)
    (hfirst : ∀ p q : GoString, u.String = p ++ bucketName ++ q → pre.length ≤ p.length) :
    prepareKey u bucketName = .ok (post, none) := by
  have hidx : Index u.String bucketName = (pre.length : Int) := by
    rw [Index, hs, indexFrom_of_first bucketName pre (c :: post) 0 (by rw [← hs]; exact hfirst)]
    simp
  have hne : ¬ ((pre.length : Int) = -1) := by omega
  have hdrop : (pre ++ bucketName ++ c :: post).drop (pre.length + bucketName.length + 1) = post := by
    have : pre ++ bucketName ++ c :: post = (pre ++ bucketName ++ [c]) ++ post := by simp
    rw [this]
    exact List.drop_left' (by simp [Nat.add_assoc])
  have hnat : ((pre.length : Int) + (bucketName.length : Int) + 1).toNat =
      pre.length + bucketName.length + 1 := by omega
  have hbound : 0 ≤ (pre.length : Int) + (bucketName.length : Int) + 1 ∧
      (pre.length : Int) + (bucketName.length : Int) + 1 ≤
        ((pre ++ bucketName ++ c :: post).length : Int) := by
    simp only [List.length_append, List.length_cons, Nat.cast_add, Nat.cast_one]
    omega
  simp only [prepareKey, hidx, if_neg hne, sliceFrom]
  rw [hs, if_pos hbound, hnat, hdrop]
  rfl

/-- C4, amended: when the bucket name does not occur in the URL string, prepareKey returns
the whole URL string as the key, unchanged, and a nil error. -/
theorem prepareKey_absent (u : URL) (bucketName : GoString)
    (h : ¬ bucketName <:+: u.String) : prepareKey u bucketName = .ok (u.String, none) := by
  have hidx : Index u.String bucketName = -1 := (Index_eq_neg_one_iff _ _).2 h
  simp [prepareKey, hidx]

/-- Witness for C3, amended: the URL string of the end-to-end scenario; the first
occurrence of the bucket name is at offset 22 and the byte after it is the separator. -/
theorem prepareKey_first_witness :
    prepareKey ⟨bytes "https://store.example/bucket-a/dir/file.bin", []⟩ (bytes "bucket-a") =
      .ok (bytes "dir/file.bin", none) :=
  prepareKey_first ⟨bytes "https://store.example/bucket-a/dir/file.bin", []⟩ (bytes "bucket-a")
    (bytes "https://store.example/") (bytes "dir/file.bin") 47 (by decide)
    (fun p q h => by
      have hle := Index_le_of_occurrence _ _ p q h
      have hidx : Index (bytes "https://store.example/bucket-a/dir/file.bin")
          (bytes "bucket-a") = 22 := by decide
      have hlen : (bytes "https://store.example/").length = 22 := by decide
      rw [hlen]
      simp only [hidx] at hle
      exact_mod_cast hle)

/-- C3, as stated, fails: in this URL string the first occurrence of the bucket name is in
the host and is followed by a dot. The suffix after the first occurrence of bucket name
plus separator is "dir/file.bin"; prepareKey returns what follows the dot, a key that is
not preceded in the URL string by bucket name and separator. -/
theorem prepareKey_bucket_in_host :
    bytes "bucket-a" <:+: bytes "https://bucket-a.store.example/bucket-a/dir/file.bin" ∧
      specKey (bytes "https://bucket-a.store.example/bucket-a/dir/file.bin")
          (bytes "bucket-a") = some (bytes "dir/file.bin") ∧
      prepareKey ⟨bytes "https://bucket-a.store.example/bucket-a/dir/file.bin", []⟩
          (bytes "bucket-a") =
        .ok (bytes "store.example/bucket-a/dir/file.bin", none) ∧
      ¬ (bytes "bucket-a" ++ bytes "/" ++ bytes "store.example/bucket-a/dir/file.bin") <:+
          bytes "https://bucket-a.store.example/bucket-a/dir/file.bin" := by
  refine ⟨?_, by decide, by decide, by decide⟩
  exact ⟨bytes "https://", bytes ".store.example/bucket-a/dir/file.bin", by decide⟩

/-- Witness for C4, amended: a URL string without the bucket name comes back whole. -/
theorem prepareKey_absent_witness :
    prepareKey ⟨bytes "https://store.example/other/dir/file.bin", []⟩ (bytes "bucket-a") =
      .ok (bytes "https://store.example/other/dir/file.bin", none) :=
  prepareKey_absent ⟨bytes "https://store.example/other/dir/file.bin", []⟩ (bytes "bucket-a")
    (by decide)

/-- C4, as stated, fails: the bucket name does not occur in this URL string, and the key
returned is not the empty key. -/
theorem prepareKey_absent_not_empty :
    ¬ bytes "bucket-a" <:+: bytes "https://store.example/other/dir/file.bin" ∧
      prepareKey ⟨bytes "https://store.example/other/dir/file.bin", []⟩ (bytes "bucket-a") ≠
        .ok ([], none) := by
  decide

/-! ## `tryFromUrl` -/

/-- The header name `content-length` is looked up as `Content-Length`. -/
theorem canonical_content_length :
    CanonicalMIMEHeaderKey (bytes "content-length") = bytes "Content-Length" := by decide

/-- The header name `content-type` is looked up as `Content-Type`. -/
theorem canonical_content_type :
    CanonicalMIMEHeaderKey (bytes "content-type") = bytes "Content-Type" := by decide

/-- A header that is absent from the map reads as the empty string. -/
theorem Header_Get_of_absent (h : Values) (key : GoString)
    (habs : Values.lookup h (CanonicalMIMEHeaderKey key) = []) : Header.Get h key = [] := by
  simp [Header.Get, habs]

/-- With status 200 and a content-length that parses to zero (or does not parse, which
gives zero as well) the result is FileInvalidSizeError. -/
theorem tryFromUrl_of_size_zero {β : Type} (w : World β) (u : URL) (b : Bucket β)
    (key : GoString) (resp : Response β)
    (hkey : prepareKey u b.Name = .ok (key, none))
    (hresp : b.GetResponse key = .ok resp) (hstatus : resp.StatusCode = 200)
    (hz : (ParseInt (Header.Get resp.Header (bytes "content-length"))).1 = 0) :
    tryFromUrl w u b = .ok (FileMeta.zero β, some GoError.FileInvalidSizeError) := by
  simp [tryFromUrl, hkey, hresp, hstatus, hz, bind, Except.bind, pure, Except.pure]

/-- With status 200, a content-length that parses to a non-zero value and an empty
content-type the result is MimeTypeNotRecognizedError. -/
theorem tryFromUrl_of_type_empty {β : Type} (w : World β) (u : URL) (b : Bucket β)
    (key : GoString) (resp : Response β)
    (hkey : prepareKey u b.Name = .ok (key, none))
    (hresp : b.GetResponse key = .ok resp) (hstatus : resp.StatusCode = 200)
    (hz : (ParseInt (Header.Get resp.Header (bytes "content-length"))).1 ≠ 0)
    (ht : Header.Get resp.Header (bytes "content-type") = []) :
    tryFromUrl w u b = .ok (FileMeta.zero β, some GoError.MimeTypeNotRecognizedError) := by
  simp [tryFromUrl, hkey, hresp, hstatus, hz, ht, bind, Except.bind, pure, Except.pure]

/-- What a return of `tryFromUrl` with a nil error implies: every check was passed and
the record holds the body, the parsed size, the content type and the resolved level. -/
theorem tryFromUrl_ok_inv {β : Type} (w : World β) (u : URL) (b : Bucket β) (fm : FileMeta β)
    (h : tryFromUrl w u b = .ok (fm, none)) :
    ∃ key resp a, prepareKey u b.Name = .ok (key, none) ∧ b.GetResponse key = .ok resp ∧
      resp.StatusCode = 200 ∧
      (ParseInt (Header.Get resp.Header (bytes "content-length"))).1 ≠ 0 ∧
      Header.Get resp.Header (bytes "content-type") ≠ [] ∧
      getAcl w b key u = .ok (a, none) ∧
      fm = { Reader := some resp.Body,
             Filesize := (ParseInt (Header.Get resp.Header (bytes "content-length"))).1,
             Mimetype := Header.Get resp.Header (bytes "content-type"), Acl := a } := by
  rcases hk : prepareKey u b.Name with p | ⟨key, err⟩
  · simp [tryFromUrl, hk, bind, Except.bind] at h
  · cases err with
    | some e => simp [tryFromUrl, hk, bind, Except.bind, pure, Except.pure] at h
    | none =>
      rcases hr : b.GetResponse key with e | resp
      · simp [tryFromUrl, hk, hr, bind, Except.bind, pure, Except.pure] at h
      · by_cases hs : resp.StatusCode = 200
        · by_cases hz : (ParseInt (Header.Get resp.Header (bytes "content-length"))).1 = 0
          · simp [tryFromUrl, hk, hr, hs, hz, bind, Except.bind, pure, Except.pure] at h
          · by_cases ht : Header.Get resp.Header (bytes "content-type") = []
            · simp [tryFromUrl, hk, hr, hs, hz, ht, bind, Except.bind, pure, Except.pure] at h
            · rcases ha : getAcl w b key u with p | ⟨a, err⟩
              · simp [tryFromUrl, hk, hr, hs, hz, ht, ha, bind, Except.bind, pure,
                  Except.pure] at h
              · cases err with
                | some e =>
                  simp [tryFromUrl, hk, hr, hs, hz, ht, ha, bind, Except.bind, pure,
                    Except.pure] at h
                | none =>
                  simp [tryFromUrl, hk, hr, hs, hz, ht, ha, bind, Except.bind, pure,
                    Except.pure] at h
                  exact ⟨key, resp, a, rfl, hr, hs, hz, ht, ha, h.symm⟩
        · simp [tryFromUrl, hk, hr, hs, bind, Except.bind, pure, Except.pure] at h

/-- The grant interpretation is what `getAcl` returns once the ACL document has been
fetched and decoded: for a non-empty key, a URL that parses, a 200 answer and a document
that decodes, the result of `getAcl` is `interpretGrants` of the decoded grants. -/
theorem getAcl_eq_interpretGrants {β : Type} (w : World β) (b : Bucket β) (c : Fin 256)
    (rest : GoString) (u parsed : URL) (ok : Response β) (policy : AccessControlPolicy)
    (hparse : w.parse (b.URL (c :: rest)) = some parsed)
    (hdo : ∀ req, b.Do req = .ok ok) (hstatus : ok.StatusCode = 200)
    (hdecode : w.decode ok.Body = .ok policy) :
    getAcl w b (c :: rest) u = .ok (interpretGrants policy.Grants) := by
  simp [getAcl, toSignString, slice, hparse, hdo, hstatus, hdecode, interpretGrants, bind,
    Except.bind, pure, Except.pure]

/-- C7: for an object response with status 200, a content-length header that is "0" or
absent gives FileInvalidSizeError, and a content-length that parses to a non-zero size
with a content-type header that is absent or empty gives MimeTypeNotRecognizedError. The
result is the same for every world and every ACL answer: `getAcl` is not reached. -/
theorem tryFromUrl_header_validation {β : Type} (w : World β) (u : URL) (b : Bucket β)
    (key : GoString) (resp : Response β)
    (hkey : prepareKey u b.Name = .ok (key, none))
    (hresp : b.GetResponse key = .ok resp) (hstatus : resp.StatusCode = 200) :
    ((Header.Get resp.Header (bytes "content-length") = bytes "0" ∨
        Values.lookup resp.Header (bytes "Content-Length") = []) →
      tryFromUrl w u b = .ok (FileMeta.zero β, some GoError.FileInvalidSizeError)) ∧
    (∀ n : Int, ParseInt (Header.Get resp.Header (bytes "content-length")) = (n, none) →
      n ≠ 0 →
      (Values.lookup resp.Header (bytes "Content-Type") = [] ∨
        Header.Get resp.Header (bytes "content-type") = []) →
      tryFromUrl w u b = .ok (FileMeta.zero β, some GoError.MimeTypeNotRecognizedError)) := by
  constructor
  · intro hlen
    apply tryFromUrl_of_size_zero w u b key resp hkey hresp hstatus
    rcases hlen with h | h
    · rw [h]; decide
    · rw [Header_Get_of_absent _ _ (by rw [canonical_content_length]; exact h)]; decide
  · intro n hn hne htype
    apply tryFromUrl_of_type_empty w u b key resp hkey hresp hstatus
    · rw [hn]; exact hne
    · rcases htype with h | h
      · exact Header_Get_of_absent _ _ (by rw [canonical_content_type]; exact h)
      · exact h

/-- Witness for C7: content-length "0" with a content type, and content-length "1024"
with no content-type header, both with status 200. -/
theorem tryFromUrl_header_validation_witness :
    tryFromUrl (exampleWorld []) exampleURL
        (exampleBucket (exampleResponse 200 (bytes "0") (bytes "image/png"))) =
      .ok (FileMeta.zero Nat, some GoError.FileInvalidSizeError) ∧
    tryFromUrl (exampleWorld []) exampleURL (exampleBucket (exampleResponseNoType (bytes "1024"))) =
      .ok (FileMeta.zero Nat, some GoError.MimeTypeNotRecognizedError) :=
  ⟨(tryFromUrl_header_validation (exampleWorld []) exampleURL
      (exampleBucket (exampleResponse 200 (bytes "0") (bytes "image/png")))
      (bytes "dir/file.bin") (exampleResponse 200 (bytes "0") (bytes "image/png"))
      (by decide) rfl rfl).1 (Or.inl (by decide)),
   (tryFromUrl_header_validation (exampleWorld []) exampleURL
      (exampleBucket (exampleResponseNoType (bytes "1024")))
      (bytes "dir/file.bin") (exampleResponseNoType (bytes "1024"))
      (by decide) rfl rfl).2 1024 (by decide) (by decide) (Or.inl (by decide))⟩

/-- C8, as stated, fails: the header content-length "-5" denotes a negative integer, and
with status 200, a content type and a resolvable ACL `tryFromUrl` returns a nil error and
a record whose Filesize is -5. -/
theorem tryFromUrl_negative_size :
    ParseInt (bytes "-5") = (-5, none) ∧
    tryFromUrl (exampleWorld [mkGrant allUsersURI (bytes "READ")]) exampleURL
        (exampleBucket (exampleResponse 200 (bytes "-5") (bytes "image/png"))) =
      .ok ({ Reader := some 7, Filesize := -5, Mimetype := bytes "image/png",
             Acl := s3.PublicRead }, none) := by
  decide

/-- C8, amended: every record returned with a nil error has Filesize different from 0;
that is, for an object response with status 200 whose content-length header parses to
zero, `tryFromUrl` fails with FileInvalidSizeError rather than succeeding. -/
theorem tryFromUrl_filesize_ne_zero {β : Type} (w : World β) (u : URL) (b : Bucket β) :
    (∀ fm : FileMeta β, tryFromUrl w u b = .ok (fm, none) → fm.Filesize ≠ 0) ∧
    (∀ (key : GoString) (resp : Response β), prepareKey u b.Name = .ok (key, none) →
      b.GetResponse key = .ok resp → resp.StatusCode = 200 →
      (ParseInt (Header.Get resp.Header (bytes "content-length"))).1 = 0 →
      tryFromUrl w u b = .ok (FileMeta.zero β, some GoError.FileInvalidSizeError)) := by
  constructor
  · intro fm h
    obtain ⟨key, resp, a, _, _, _, hz, _, _, hfm⟩ := tryFromUrl_ok_inv w u b fm h
    rw [hfm]
    exact hz
  · intro key resp hkey hresp hstatus hz
    exact tryFromUrl_of_size_zero w u b key resp hkey hresp hstatus hz

/-- Witness for C8, amended: the record of the end-to-end scenario has a non-zero size,
and content-length "000" is refused. -/
theorem tryFromUrl_filesize_ne_zero_witness :
    (1024 : Int) ≠ 0 ∧
    tryFromUrl (exampleWorld []) exampleURL
        (exampleBucket (exampleResponse 200 (bytes "000") (bytes "image/png"))) =
      .ok (FileMeta.zero Nat, some GoError.FileInvalidSizeError) :=
  ⟨(tryFromUrl_filesize_ne_zero (exampleWorld [mkGrant allUsersURI (bytes "READ")]) exampleURL
      (exampleBucket (exampleResponse 200 (bytes "1024") (bytes "image/png")))).1
      { Reader := some 7, Filesize := 1024, Mimetype := bytes "image/png",
        Acl := s3.PublicRead } (by decide),
   (tryFromUrl_filesize_ne_zero (exampleWorld []) exampleURL
      (exampleBucket (exampleResponse 200 (bytes "000") (bytes "image/png")))).2
      (bytes "dir/file.bin") (exampleResponse 200 (bytes "000") (bytes "image/png"))
      (by decide) rfl rfl (by decide)⟩

/-- C9: for an object response whose status code is not 200 the returned error is
NotSuccessHttpStatusError, whatever its headers are and whatever the world and the ACL
answer are: the status is tested before content-length, content-type and the ACL. -/
theorem tryFromUrl_not_ok_status {β : Type} (w : World β) (u : URL) (b : Bucket β)
    (key : GoString) (resp : Response β)
    (hkey : prepareKey u b.Name = .ok (key, none))
    (hresp : b.GetResponse key = .ok resp) (hstatus : resp.StatusCode ≠ 200) :
    tryFromUrl w u b = .ok (FileMeta.zero β, some GoError.NotSuccessHttpStatusError) := by
  simp [tryFromUrl, hkey, hresp, hstatus, bind, Except.bind, pure, Except.pure]

/-- Witness for C9: status 403 with otherwise valid headers. -/
theorem tryFromUrl_not_ok_status_witness :
    tryFromUrl (exampleWorld [mkGrant allUsersURI (bytes "READ")]) exampleURL
        (exampleBucket (exampleResponse 403 (bytes "1024") (bytes "image/png"))) =
      .ok (FileMeta.zero Nat, some GoError.NotSuccessHttpStatusError) :=
  tryFromUrl_not_ok_status (exampleWorld [mkGrant allUsersURI (bytes "READ")]) exampleURL
    (exampleBucket (exampleResponse 403 (bytes "1024") (bytes "image/png")))
    (bytes "dir/file.bin") (exampleResponse 403 (bytes "1024") (bytes "image/png"))
    (by decide) rfl (by decide)

/-- C10: for an object response with status 200, a content-length that parses to n ≠ 0,
a non-empty content-type c and body r, and an ACL resolution that returns level a with no
error, `tryFromUrl` returns no error and the record with Reader r, Filesize n, Mimetype c
and Acl a. -/
theorem tryFromUrl_success {β : Type} (w : World β) (u : URL) (b : Bucket β) (key : GoString)
    (resp : Response β) (n : Int) (a : ACL)
    (hkey : prepareKey u b.Name = .ok (key, none))
    (hresp : b.GetResponse key = .ok resp) (hstatus : resp.StatusCode = 200)
    (hlen : ParseInt (Header.Get resp.Header (bytes "content-length")) = (n, none))
    (hn : n ≠ 0)
    (htype : Header.Get resp.Header (bytes "content-type") ≠ [])
    (hacl : getAcl w b key u = .ok (a, none)) :
    tryFromUrl w u b =
      .ok ({ Reader := some resp.Body, Filesize := n,
             Mimetype := Header.Get resp.Header (bytes "content-type"), Acl := a }, none) := by
  simp [tryFromUrl, hkey, hresp, hstatus, hlen, hn, htype, hacl, bind, Except.bind, pure,
    Except.pure]

/-- Witness for C10: the end-to-end scenario, content-length "1024", content-type
"image/png", one all-users READ grant. -/
theorem tryFromUrl_success_witness :
    tryFromUrl (exampleWorld [mkGrant allUsersURI (bytes "READ")]) exampleURL
        (exampleBucket (exampleResponse 200 (bytes "1024") (bytes "image/png"))) =
      .ok ({ Reader := some 7, Filesize := 1024, Mimetype := bytes "image/png",
             Acl := s3.PublicRead }, none) :=
  tryFromUrl_success (exampleWorld [mkGrant allUsersURI (bytes "READ")]) exampleURL
    (exampleBucket (exampleResponse 200 (bytes "1024") (bytes "image/png")))
    (bytes "dir/file.bin") (exampleResponse 200 (bytes "1024") (bytes "image/png")) 1024
    s3.PublicRead (by decide) rfl rfl (by decide) (by decide) (by decide) (by decide)

/-! ## `tryFromUrl`: error paths -/

/-- What a return of `tryFromUrl` with a non-nil error implies: the record is still the
zero value, whichever check made the error. -/
theorem tryFromUrl_err_inv {β : Type} (w : World β) (u : URL) (b : Bucket β) (fm : FileMeta β)
    (e : GoError) (h : tryFromUrl w u b = .ok (fm, some e)) : fm = FileMeta.zero β := by
  rcases hk : prepareKey u b.Name with p | ⟨key, err⟩
  · simp [tryFromUrl, hk, bind, Except.bind] at h
  · cases err with
    | some e1 =>
      simp [tryFromUrl, hk, bind, Except.bind, pure, Except.pure] at h
      exact h.1.symm
    | none =>
      rcases hr : b.GetResponse key with e1 | resp
      · simp [tryFromUrl, hk, hr, bind, Except.bind, pure, Except.pure] at h
        exact h.1.symm
      · by_cases hs : resp.StatusCode = 200
        · by_cases hz : (ParseInt (Header.Get resp.Header (bytes "content-length"))).1 = 0
          · simp [tryFromUrl, hk, hr, hs, hz, bind, Except.bind, pure, Except.pure] at h
            exact h.1.symm
          · by_cases ht : Header.Get resp.Header (bytes "content-type") = []
            · simp [tryFromUrl, hk, hr, hs, hz, ht, bind, Except.bind, pure, Except.pure] at h
              exact h.1.symm
            · rcases ha : getAcl w b key u with p | ⟨a, err⟩
              · simp [tryFromUrl, hk, hr, hs, hz, ht, ha, bind, Except.bind, pure,
                  Except.pure] at h
              · cases err with
                | some e1 =>
                  simp [tryFromUrl, hk, hr, hs, hz, ht, ha, bind, Except.bind, pure,
                    Except.pure] at h
                  exact h.1.symm
                | none =>
                  simp [tryFromUrl, hk, hr, hs, hz, ht, ha, bind, Except.bind, pure,
                    Except.pure] at h
        · simp [tryFromUrl, hk, hr, hs, bind, Except.bind, pure, Except.pure] at h
          exact h.1.symm

/-- C11: on every path on which `tryFromUrl` returns a non-nil error the returned record
is the zero value: Reader is nil, Filesize is 0, Mimetype is empty and Acl is unset. -/
theorem tryFromUrl_error_zero {β : Type} (w : World β) (u : URL) (b : Bucket β)
    (fm : FileMeta β) (e : GoError) (h : tryFromUrl w u b = .ok (fm, some e)) :
    fm = FileMeta.zero β ∧ fm.Reader = none ∧ fm.Filesize = 0 ∧ fm.Mimetype = [] ∧
      fm.Acl = [] := by
  have hz : fm = FileMeta.zero β := tryFromUrl_err_inv w u b fm e h
  subst hz
  exact ⟨rfl, rfl, rfl, rfl, rfl⟩

/-- Witness for C11: the ACL resolution fails on a log-delivery grant after the object
response, with body stream 7, has passed every check; the record is zero all the same. -/
theorem tryFromUrl_error_zero_witness :
    tryFromUrl (exampleWorld [mkGrant logDeliveryURI (bytes "READ")]) exampleURL
        (exampleBucket (exampleResponse 200 (bytes "1024") (bytes "image/png"))) =
      .ok (FileMeta.zero Nat, some GoError.NotImplementedAclMappingError) ∧
    (FileMeta.zero Nat = FileMeta.zero Nat ∧ (FileMeta.zero Nat).Reader = none ∧
      (FileMeta.zero Nat).Filesize = 0 ∧ (FileMeta.zero Nat).Mimetype = [] ∧
      (FileMeta.zero Nat).Acl = []) :=
  ⟨by decide,
   tryFromUrl_error_zero (exampleWorld [mkGrant logDeliveryURI (bytes "READ")]) exampleURL
    (exampleBucket (exampleResponse 200 (bytes "1024") (bytes "image/png")))
    (FileMeta.zero Nat) GoError.NotImplementedAclMappingError (by decide)⟩

/-! ## The signed path and the first all-users grant -/

/-- The separator as a one-byte string. -/
theorem bytes_slash : bytes "/" = [47] := by decide

/-- Two separators. -/
theorem bytes_slash_slash : bytes "//" = [47, 47] := by decide

/-- The signed path for a non-empty key, by the first byte of the key. -/
theorem toSignString_cons (b rest : GoString) (c : Fin 256) :
    toSignString b (c :: rest) =
      .ok (bytes "/" ++ b ++ (if c = 47 then c :: rest else bytes "/" ++ (c :: rest))) := by
  have hslice : slice (c :: rest) 0 1 = .ok [c] := by
    simp [slice]
  by_cases hc : c = 47
  · subst hc
    simp [toSignString, hslice, bytes_slash, bind, Except.bind, pure, Except.pure]
  · simp [toSignString, hslice, bytes_slash, hc, bind, Except.bind, pure, Except.pure]

/-- C12, amended: for every bucket name b and every non-empty key k the path passed to
`sign` is "/" + b + "/" + k1, where k1 is k without its first byte when that byte is the
separator and k itself otherwise; when k does not start with two separators, k1 is k
with its leading separators removed and does not start with a separator, so that exactly
one separator stands between bucket name and key. -/
theorem toSignString_path (b k : GoString) (hk : k ≠ []) :
    toSignString b k =
        .ok (bytes "/" ++ b ++ bytes "/" ++
          (if HasPrefix k (bytes "/") = true then k.drop 1 else k)) ∧
      (HasPrefix k (bytes "//") = false →
        toSignString b k = .ok (bytes "/" ++ b ++ bytes "/" ++ trimLeadingSeparators k) ∧
          HasPrefix (trimLeadingSeparators k) (bytes "/") = false) := by
  cases k with
  | nil => exact absurd rfl hk
  | cons c rest =>
    rw [toSignString_cons, bytes_slash, bytes_slash_slash]
    by_cases hc : c = 47
    · subst hc
      refine ⟨by simp [HasPrefix], ?_⟩
      intro h2
      cases rest with
      | nil => simp [HasPrefix, trimLeadingSeparators]
      | cons d rest2 =>
        have hd : d ≠ 47 := by
          intro hd
          subst hd
          simp [HasPrefix] at h2
        have hd2 : ¬ (47 : Fin 256) = d := fun h => hd h.symm
        simp [HasPrefix, trimLeadingSeparators, hd, hd2]
    · have hc2 : ¬ (47 : Fin 256) = c := fun h => hc h.symm
      refine ⟨by simp [HasPrefix, hc, hc2], ?_⟩
      intro _
      simp [HasPrefix, trimLeadingSeparators, hc, hc2]


/-- The signer is called by `getAcl` at the path `toSignString` gives and nowhere else:
two worlds that differ only in what their signers do at other paths give the same result. -/
theorem getAcl_sign_path {β : Type} (w w2 : World β) (b : Bucket β) (k p : GoString) (u : URL)
    (hp : toSignString b.Name k = .ok p) (hnow : w2.now = w.now) (hparse : w2.parse = w.parse)
    (hdecode : w2.decode = w.decode)
    (hsign : ∀ params headers, w2.sign b.Auth (bytes "GET") p params headers =
      w.sign b.Auth (bytes "GET") p params headers) :
    getAcl w2 b k u = getAcl w b k u := by
  simp [getAcl, hp, hnow, hparse, hdecode, hsign, bind, Except.bind]

/-- C12, as stated, fails: for a key that starts with two separators only the first one
is taken into account, and the path passed to `sign` has a double separator at the join;
the path with the leading separators of the key removed is a different one. -/
theorem toSignString_double_separator :
    toSignString (bytes "bucket-a") (bytes "//dir/file.bin") =
        .ok (bytes "/bucket-a//dir/file.bin") ∧
      bytes "/" ++ bytes "bucket-a" ++ bytes "/" ++ trimLeadingSeparators (bytes "//dir/file.bin") =
        bytes "/bucket-a/dir/file.bin" := by
  decide

/-- Witness for C12, amended: the key "/dir/file.bin" in the bucket "bucket-a". -/
theorem toSignString_path_witness :
    toSignString (bytes "bucket-a") (bytes "/dir/file.bin") = .ok (bytes "/bucket-a/dir/file.bin") ∧
      HasPrefix (trimLeadingSeparators (bytes "/dir/file.bin")) (bytes "/") = false :=
  ⟨((toSignString_path (bytes "bucket-a") (bytes "/dir/file.bin") (by decide)).2 (by decide)).1.trans
      (by decide),
   ((toSignString_path (bytes "bucket-a") (bytes "/dir/file.bin") (by decide)).2 (by decide)).2⟩

/-- The two permissions that set a level are different strings. -/
theorem READ_ne_WRITE : bytes "READ" ≠ bytes "WRITE" := by decide

/-- The loop on a list whose first all-users grant is `g`: the level is decided by the
permission of `g`, the error by the grants before `g`. -/
theorem grantLoop_first_allUsers (pre post : List Grant) (g : Grant) (st : ACL × Option GoError)
    (hpre : ∀ h ∈ pre, h.Gruntee.URI ≠ allUsersURI) (hg : g.Gruntee.URI = allUsersURI) :
    grantLoop (pre ++ g :: post) st =
      (if g.Permission = bytes "WRITE" then s3.PublicReadWrite
        else if g.Permission = bytes "READ" then s3.PublicRead else st.1,
       (grantLoop pre st).2) := by
  rw [grantLoop_append pre _ st hpre]
  have hfst := grantLoop_fst_of_no_allUsers pre st hpre
  rcases hq : grantLoop pre st with ⟨acl, err⟩
  rw [hq] at hfst
  rw [grantLoop_cons_of_eq g post acl err hg]
  simp only at hfst
  rw [hfst]

/-- What follows an all-users grant does not change the result of the loop. -/
theorem grantLoop_suffix_irrelevant (p s1 s2 : List Grant) (g : Grant)
    (st : ACL × Option GoError) (hg : g.Gruntee.URI = allUsersURI) :
    grantLoop (p ++ g :: s1) st = grantLoop (p ++ g :: s2) st := by
  induction p generalizing st with
  | nil =>
    obtain ⟨acl, err⟩ := st
    rw [List.nil_append, List.nil_append, grantLoop_cons_of_eq g s1 acl err hg,
      grantLoop_cons_of_eq g s2 acl err hg]
  | cons h p ih =>
    obtain ⟨acl, err⟩ := st
    by_cases hh : h.Gruntee.URI = allUsersURI
    · rw [List.cons_append, List.cons_append, grantLoop_cons_of_eq h _ acl err hh,
        grantLoop_cons_of_eq h _ acl err hh]
    · rw [List.cons_append, List.cons_append, grantLoop_cons_of_ne h _ acl err hh,
        grantLoop_cons_of_ne h _ acl err hh]
      exact ih _

/-- C13: when the first all-users grant of the list has permission READ the returned level
is PublicRead, and when it has permission WRITE the returned level is PublicReadWrite,
whatever grants, all-users grants included, come later in the list. -/
theorem interpretGrants_first_allUsers (pre post : List Grant) (g : Grant)
    (hpre : ∀ h ∈ pre, h.Gruntee.URI ≠ allUsersURI) (hg : g.Gruntee.URI = allUsersURI) :
    (g.Permission = bytes "READ" → (interpretGrants (pre ++ g :: post)).1 = s3.PublicRead) ∧
      (g.Permission = bytes "WRITE" →
        (interpretGrants (pre ++ g :: post)).1 = s3.PublicReadWrite) := by
  rw [interpretGrants, grantLoop_first_allUsers pre post g _ hpre hg]
  constructor
  · intro hr
    have hw : g.Permission ≠ bytes "WRITE" := by rw [hr]; exact READ_ne_WRITE
    simp only [if_neg hw, if_pos hr]
  · intro hw
    simp only [if_pos hw]

/-- Witness for C13: [all-users READ, all-users WRITE] gives PublicRead, and
[log-delivery READ, all-users WRITE, all-users READ] gives PublicReadWrite. -/
theorem interpretGrants_first_allUsers_witness :
    (interpretGrants ([] ++ mkGrant allUsersURI (bytes "READ") ::
        [mkGrant allUsersURI (bytes "WRITE")])).1 = s3.PublicRead ∧
      (interpretGrants ([mkGrant logDeliveryURI (bytes "READ")] ++
        mkGrant allUsersURI (bytes "WRITE") :: [mkGrant allUsersURI (bytes "READ")])).1 =
        s3.PublicReadWrite :=
  ⟨(interpretGrants_first_allUsers [] [mkGrant allUsersURI (bytes "WRITE")]
      (mkGrant allUsersURI (bytes "READ")) (by simp) rfl).1 rfl,
   (interpretGrants_first_allUsers [mkGrant logDeliveryURI (bytes "READ")]
      [mkGrant allUsersURI (bytes "READ")] (mkGrant allUsersURI (bytes "WRITE"))
      (by decide) rfl).2 rfl⟩

/-- An all-users grant with a permission other than READ and WRITE, and all that follows
it, leave the level what the grants before it made it. -/
theorem grantLoop_level_unchanged (p s : List Grant) (g : Grant) (st : ACL × Option GoError)
    (hg : g.Gruntee.URI = allUsersURI) (hr : g.Permission ≠ bytes "READ")
    (hw : g.Permission ≠ bytes "WRITE") :
    (grantLoop (p ++ g :: s) st).1 = (grantLoop p st).1 := by
  induction p generalizing st with
  | nil =>
    obtain ⟨acl, err⟩ := st
    rw [List.nil_append, grantLoop_cons_of_eq g s acl err hg]
    simp only [if_neg hw, if_neg hr, grantLoop]
  | cons h p ih =>
    obtain ⟨acl, err⟩ := st
    by_cases hh : h.Gruntee.URI = allUsersURI
    · rw [List.cons_append, grantLoop_cons_of_eq h _ acl err hh,
        grantLoop_cons_of_eq h _ acl err hh]
    · rw [List.cons_append, grantLoop_cons_of_ne h _ acl err hh,
        grantLoop_cons_of_ne h _ acl err hh]
      exact ih _

/-- C14: the result depends only on the grants up to and including the first all-users
grant: for all grant lists p, s1, s2 and every all-users grant g the results for
p ++ [g] ++ s1 and p ++ [g] ++ s2 are equal. An all-users grant g with a permission other
than READ or WRITE leaves the level as it is after p, which is Private when g is the
first all-users grant of the list. -/
theorem interpretGrants_prefix_only (p s1 s2 : List Grant) (g : Grant)
    (hg : g.Gruntee.URI = allUsersURI) :
    interpretGrants (p ++ [g] ++ s1) = interpretGrants (p ++ [g] ++ s2) ∧
      (g.Permission ≠ bytes "READ" → g.Permission ≠ bytes "WRITE" →
        (interpretGrants (p ++ [g] ++ s1)).1 = (interpretGrants p).1 ∧
        ((∀ h ∈ p, h.Gruntee.URI ≠ allUsersURI) →
          (interpretGrants (p ++ [g] ++ s1)).1 = s3.Private)) := by
  have happ : ∀ s : List Grant, p ++ [g] ++ s = p ++ g :: s := fun s => by simp
  rw [happ s1, happ s2]
  refine ⟨grantLoop_suffix_irrelevant p s1 s2 g _ hg, ?_⟩
  intro hr hw
  refine ⟨grantLoop_level_unchanged p s1 g _ hg hr hw, ?_⟩
  intro hp
  rw [interpretGrants, grantLoop_first_allUsers p s1 g _ hp hg]
  simp only [if_neg hw, if_neg hr]

/-- Witness for C14: after [log-delivery READ, all-users FULL_CONTROL] two further grants
change nothing, and the level is Private. -/
theorem interpretGrants_prefix_only_witness :
    interpretGrants ([mkGrant logDeliveryURI (bytes "READ")] ++
          [mkGrant allUsersURI (bytes "FULL_CONTROL")] ++ []) =
        interpretGrants ([mkGrant logDeliveryURI (bytes "READ")] ++
          [mkGrant allUsersURI (bytes "FULL_CONTROL")] ++
          [mkGrant authenticatedUsersURI (bytes "READ"), mkGrant allUsersURI (bytes "WRITE")]) ∧
      (interpretGrants ([mkGrant logDeliveryURI (bytes "READ")] ++
          [mkGrant allUsersURI (bytes "FULL_CONTROL")] ++ [])).1 = s3.Private :=
  ⟨(interpretGrants_prefix_only [mkGrant logDeliveryURI (bytes "READ")] []
      [mkGrant authenticatedUsersURI (bytes "READ"), mkGrant allUsersURI (bytes "WRITE")]
      (mkGrant allUsersURI (bytes "FULL_CONTROL")) rfl).1,
   ((interpretGrants_prefix_only [mkGrant logDeliveryURI (bytes "READ")] []
      [mkGrant authenticatedUsersURI (bytes "READ"), mkGrant allUsersURI (bytes "WRITE")]
      (mkGrant allUsersURI (bytes "FULL_CONTROL")) rfl).2 (by decide) (by decide)).2
      (by decide)⟩

/-! ## Slice bounds in `prepareKey` and `getAcl` -/

/-- The offset `Index` gives is that of the first occurrence. -/
theorem Index_of_first (s b pre post : GoString) (hs : s = pre ++ b ++ post)
    (hfirst : ∀ p q : GoString, s = p ++ b ++ q → pre.length ≤ p.length) :
    Index s b = (pre.length : Int) := by
  subst hs
  rw [Index, indexFrom_of_first b pre post 0 hfirst]
  simp

/-- When the bucket name occurs, `prepareKey` is the slice from one byte past its first
occurrence, fault included. -/
theorem prepareKey_of_first (u : URL) (b pre post : GoString)
    (hs : u.String = pre ++ b ++ post)
    (hfirst : ∀ p q : GoString, u.String = p ++ b ++ q → pre.length ≤ p.length) :
    prepareKey u b =
      (sliceFrom u.String ((pre.length : Int) + (b.length : Int) + 1)).map
        (fun key => (key, none)) := by
  have hidx := Index_of_first u.String b pre post hs hfirst
  have hne : ¬ ((pre.length : Int) = -1) := by omega
  simp only [prepareKey, hidx, if_neg hne]
  cases sliceFrom u.String ((pre.length : Int) + (b.length : Int) + 1) <;> rfl

/-- C15: when the bucket name b occurs in the URL string s with first index i, the slice
start i + len(b) + 1 is within bounds (at most len(s)) if and only if at least one byte
follows that first occurrence; when s ends with that first occurrence the start exceeds
len(s) and `prepareKey` faults instead of returning a key. -/
theorem prepareKey_slice_bound (u : URL) (b pre post : GoString)
    (hs : u.String = pre ++ b ++ post)
    (hfirst : ∀ p q : GoString, u.String = p ++ b ++ q → pre.length ≤ p.length) :
    Index u.String b = (pre.length : Int) ∧
      (Index u.String b + (b.length : Int) + 1 ≤ (u.String.length : Int) ↔ post ≠ []) ∧
      (post = [] →
        Index u.String b + (b.length : Int) + 1 > (u.String.length : Int) ∧
          prepareKey u b = .error Panic.sliceBoundsOutOfRange) := by
  have hidx := Index_of_first u.String b pre post hs hfirst
  have hlen : (u.String.length : Int) = (pre.length : Int) + (b.length : Int) + (post.length : Int) := by
    rw [hs]; simp only [List.length_append, Nat.cast_add]
  have hpost : post ≠ [] ↔ 0 < post.length := by
    cases post <;> simp
  refine ⟨hidx, ?_, ?_⟩
  · rw [hidx, hlen, hpost]; omega
  · intro hp
    have hgt : (pre.length : Int) + (b.length : Int) + 1 > (u.String.length : Int) := by
      rw [hlen, hp]; simp
    refine ⟨by rw [hidx]; exact hgt, ?_⟩
    rw [prepareKey_of_first u b pre post hs hfirst, sliceFrom, if_neg (by omega)]
    rfl

/-- Witness for C15: the URL string "https://store.example/bucket-a" ends with the first
occurrence of the bucket name "bucket-a". -/
theorem prepareKey_slice_bound_witness :
    Index (bytes "https://store.example/bucket-a") (bytes "bucket-a") =
        ((bytes "https://store.example/").length : Int) ∧
      Index (bytes "https://store.example/bucket-a") (bytes "bucket-a") +
          ((bytes "bucket-a").length : Int) + 1 >
        ((bytes "https://store.example/bucket-a").length : Int) ∧
      prepareKey ⟨bytes "https://store.example/bucket-a", []⟩ (bytes "bucket-a") =
        .error Panic.sliceBoundsOutOfRange :=
  have h := prepareKey_slice_bound ⟨bytes "https://store.example/bucket-a", []⟩
    (bytes "bucket-a") (bytes "https://store.example/") [] (by decide)
    (fun p q hpq => by
      have hle : Index (bytes "https://store.example/bucket-a") (bytes "bucket-a") ≤
          (p.length : Int) := Index_le_of_occurrence _ _ p q hpq
      have hidx : Index (bytes "https://store.example/bucket-a") (bytes "bucket-a") = 22 := by
        decide
      have hlen : (bytes "https://store.example/").length = 22 := by decide
      rw [hlen]
      simp only [hidx] at hle
      exact_mod_cast hle)
  ⟨h.1, (h.2.2 rfl).1, (h.2.2 rfl).2⟩

/-- C16: for every non-empty key the slice key[0:1] is in bounds; for the empty key it is
out of range and `getAcl` faults, whatever the signer and the transport are, so before
any request is signed or sent; and `prepareKey` returns the empty key for a URL string that
ends with the first occurrence of the bucket name and one separator. -/
theorem getAcl_empty_key {β : Type} (w : World β) (b : Bucket β) (u : URL) :
    (∀ k : GoString, k ≠ [] → slice k 0 1 = .ok (k.take 1)) ∧
      slice [] 0 1 = .error Panic.sliceBoundsOutOfRange ∧
      getAcl w b [] u = .error Panic.sliceBoundsOutOfRange ∧
      (∀ (url : URL) (pre : GoString), url.String = pre ++ b.Name ++ bytes "/" →
        (∀ p q : GoString, url.String = p ++ b.Name ++ q → pre.length ≤ p.length) →
        prepareKey url b.Name = .ok ([], none)) := by
  refine ⟨?_, by decide, ?_, ?_⟩
  · intro k hk
    cases k with
    | nil => exact absurd rfl hk
    | cons c rest => simp [slice]
  · simp [getAcl, toSignString, slice, bind, Except.bind]
  · intro url pre hs hfirst
    rw [prepareKey_of_first url b.Name pre (bytes "/") hs hfirst, sliceFrom, hs]
    have hb : 0 ≤ (pre.length : Int) + (b.Name.length : Int) + 1 ∧
        (pre.length : Int) + (b.Name.length : Int) + 1 ≤
          ((pre ++ b.Name ++ bytes "/").length : Int) := by
      rw [bytes_slash]
      simp only [List.length_append, List.length_cons, List.length_nil, Nat.cast_add,
        Nat.cast_one]
      omega
    rw [if_pos hb]
    have hnat : ((pre.length : Int) + (b.Name.length : Int) + 1).toNat =
        (pre ++ b.Name ++ bytes "/").length := by
      rw [bytes_slash]
      simp only [List.length_append, List.length_cons, List.length_nil]
      omega
    rw [hnat, List.drop_length]
    rfl

/-- Witness for C16: for "https://store.example/bucket-a/" the key is empty, `getAcl`
faults on it, and so does `tryFromUrl` once the object response has passed its checks. -/
theorem getAcl_empty_key_witness :
    prepareKey ⟨bytes "https://store.example/bucket-a/", []⟩ (bytes "bucket-a") = .ok ([], none) ∧
      getAcl (exampleWorld []) (exampleBucket (exampleResponse 200 (bytes "1024") (bytes "image/png")))
        [] ⟨bytes "https://store.example/bucket-a/", []⟩ = .error Panic.sliceBoundsOutOfRange ∧
      tryFromUrl (exampleWorld []) ⟨bytes "https://store.example/bucket-a/", []⟩
        (exampleBucket (exampleResponse 200 (bytes "1024") (bytes "image/png"))) =
        .error Panic.sliceBoundsOutOfRange :=
  have h := getAcl_empty_key (exampleWorld [])
    (exampleBucket (exampleResponse 200 (bytes "1024") (bytes "image/png")))
    ⟨bytes "https://store.example/bucket-a/", []⟩
  ⟨h.2.2.2 ⟨bytes "https://store.example/bucket-a/", []⟩ (bytes "https://store.example/")
      (by decide)
      (fun p q hpq => by
        have hle : Index (bytes "https://store.example/bucket-a/") (bytes "bucket-a") ≤
            (p.length : Int) := Index_le_of_occurrence _ _ p q hpq
        have hidx : Index (bytes "https://store.example/bucket-a/") (bytes "bucket-a") = 22 := by
          decide
        have hlen : (bytes "https://store.example/").length = 22 := by decide
        rw [hlen]
        simp only [hidx] at hle
        exact_mod_cast hle),
   h.2.2.1, by decide⟩

end CephMeta
